import Mathlib

/-!
Verification of the `nextmicro/logger` rotating, buffered file writer.

The Go sources are embedded shallowly:

* Go strings are `List Char` (byte-wise comparison coincides with
  code-point comparison for the file names involved).
* `time.Now()`-derived labels (`getNowDate`, `getNowHour`,
  `getNowDateInRFC3339Format`) are passed to each operation as explicit
  arguments, so the rules become pure functions of the current label.
* `filepath.Glob` is modelled as a filter of the directory entries with
  the single-star pattern matcher used by the rules, where `*` does not
  match a path separator.
* The filesystem side effects of the worker (`close`, `Stat`, `Rename`,
  `Create`, and the gzip pipeline) are driven by an explicit outcome
  oracle recording which calls succeed.
-/

/-- Go strings, modelled as lists of characters. -/
abbrev Str := List Char

/-- Go string comparison `a < b`: byte-wise lexicographic order. -/
def goStrLt : Str → Str → Bool
  | [], [] => false
  | [], _ :: _ => true
  | _ :: _, [] => false
  | a :: as, b :: bs =>
    if a < b then true
    else if b < a then false
    else goStrLt as bs

/-- Go string comparison `a <= b`. -/
def goStrLe (a b : Str) : Bool := !(goStrLt b a)

theorem goStrLt_irrefl (a : Str) : goStrLt a a = false := by
  induction a with
  | nil => rfl
  | cons c cs ih => simp [goStrLt, ih]

theorem goStrLt_trans {a b c : Str} (h1 : goStrLt a b = true)
    (h2 : goStrLt b c = true) : goStrLt a c = true := by
  induction a generalizing b c with
  | nil =>
    cases b with
    | nil => simp [goStrLt] at h1
    | cons y ys =>
      cases c with
      | nil => simp [goStrLt] at h2
      | cons z zs => rfl
  | cons x xs ih =>
    cases b with
    | nil => simp [goStrLt] at h1
    | cons y ys =>
      cases c with
      | nil => simp [goStrLt] at h2
      | cons z zs =>
        simp only [goStrLt] at h1 h2 ⊢
        rcases lt_trichotomy x y with hxy | hxy | hxy
        · rcases lt_trichotomy y z with hyz | hyz | hyz
          · simp [lt_trans hxy hyz]
          · subst hyz; simp [hxy]
          · rw [if_neg (lt_asymm hyz), if_pos hyz] at h2
            exact Bool.noConfusion h2
        · subst hxy
          rw [if_neg (lt_irrefl x), if_neg (lt_irrefl x)] at h1
          rcases lt_trichotomy x z with hxz | hxz | hxz
          · simp [hxz]
          · subst hxz
            rw [if_neg (lt_irrefl x), if_neg (lt_irrefl x)] at h2 ⊢
            exact ih h1 h2
          · rw [if_neg (lt_asymm hxz), if_pos hxz] at h2
            exact Bool.noConfusion h2
        · rw [if_neg (lt_asymm hxy), if_pos hxy] at h1
          exact Bool.noConfusion h1

theorem goStrLt_asymm {a b : Str} (h : goStrLt a b = true) :
    goStrLt b a = false := by
  cases hb : goStrLt b a with
  | false => rfl
  | true =>
    have := goStrLt_trans h hb
    rw [goStrLt_irrefl] at this
    exact absurd this (by simp)

theorem goStrLt_conn {a b : Str} (h1 : goStrLt a b = false)
    (h2 : goStrLt b a = false) : a = b := by
  induction a generalizing b with
  | nil =>
    cases b with
    | nil => rfl
    | cons y ys => simp [goStrLt] at h1
  | cons x xs ih =>
    cases b with
    | nil => simp [goStrLt] at h2
    | cons y ys =>
      simp only [goStrLt] at h1 h2
      rcases lt_trichotomy x y with hxy | hxy | hxy
      · rw [if_pos hxy] at h1
        exact Bool.noConfusion h1
      · subst hxy
        rw [if_neg (lt_irrefl x), if_neg (lt_irrefl x)] at h1 h2
        rw [ih h1 h2]
      · rw [if_pos hxy] at h2
        exact Bool.noConfusion h2

theorem goStrLt_append_left (p a b : Str) :
    goStrLt (p ++ a) (p ++ b) = goStrLt a b := by
  induction p with
  | nil => rfl
  | cons c cs ih => simp [goStrLt, ih]

theorem goStrLt_self_append {p a : Str} (h : a ≠ []) :
    goStrLt p (p ++ a) = true := by
  induction p with
  | nil =>
    cases a with
    | nil => exact absurd rfl h
    | cons c cs => rfl
  | cons c cs ih => simp [goStrLt, ih]

theorem goStrLe_trans {a b c : Str} (h1 : goStrLe a b = true)
    (h2 : goStrLe b c = true) : goStrLe a c = true := by
  simp only [goStrLe, Bool.not_eq_true'] at h1 h2 ⊢
  cases hca : goStrLt c a with
  | false => rfl
  | true =>
    cases hbc : goStrLt b c with
    | true =>
      have := goStrLt_trans hbc hca
      rw [this] at h1
      exact Bool.noConfusion h1
    | false =>
      have hbceq : b = c := goStrLt_conn hbc h2
      rw [← hbceq] at hca
      rw [hca] at h1
      exact Bool.noConfusion h1

theorem goStrLe_of_lt {a b : Str} (h : goStrLt a b = true) :
    goStrLe a b = true := by
  simp [goStrLe, goStrLt_asymm h]

theorem goStrLt_of_le_of_lt {a b c : Str} (h1 : goStrLe a b = true)
    (h2 : goStrLt b c = true) : goStrLt a c = true := by
  simp only [goStrLe, Bool.not_eq_true'] at h1
  cases hab : goStrLt a b with
  | true => exact goStrLt_trans hab h2
  | false => rw [goStrLt_conn hab h1]; exact h2

/-- Strip a literal trailing pattern segment, returning the remainder. -/
def chopBack (post s : Str) : Option Str :=
  if post.length ≤ s.length ∧ s.drop (s.length - post.length) = post then
    some (s.take (s.length - post.length))
  else none

theorem chopBack_eq_some {post s m : Str} :
    chopBack post s = some m ↔ s = m ++ post := by
  unfold chopBack
  split
  next h =>
    obtain ⟨hl, hd⟩ := h
    constructor
    · intro hm
      obtain rfl : s.take (s.length - post.length) = m := by
        simpa using hm
      conv_lhs => rw [← List.take_append_drop (s.length - post.length) s]
      rw [hd]
    · intro hm
      subst hm
      congr 1
      have : (m ++ post).length - post.length = m.length := by
        simp
      rw [this, List.take_left]
  next h =>
    constructor
    · intro h2
      exact Option.noConfusion h2
    · intro hm
      exfalso
      apply h
      subst hm
      refine ⟨by simp, ?_⟩
      have : (m ++ post).length - post.length = m.length := by simp
      rw [this, List.drop_left]

/-- Whether `s` ends with the literal `post`. -/
def endsWithStr (s post : Str) : Bool := (chopBack post s).isSome

theorem endsWithStr_append (m post : Str) : endsWithStr (m ++ post) post = true := by
  unfold endsWithStr
  rw [chopBack_eq_some.mpr rfl]
  rfl

/-- Tokens of a Go glob pattern: a literal character, `*` (matching any,
    possibly empty, run of non-separator characters), or `?` (matching one
    non-separator character). -/
inductive GlobTok where
  | lit (c : Char)
  | star
  | anyOne
  deriving DecidableEq

/-- Fuel-bounded Go glob matching on tokens; fuel exceeding
    `p.length + name.length` is always sufficient. -/
def globMatchFuel : Nat → List GlobTok → Str → Bool
  | 0, _, _ => false
  | _ + 1, [], name => name.isEmpty
  | _ + 1, GlobTok.lit _ :: _, [] => false
  | fuel + 1, GlobTok.lit c :: ps, d :: ds => c == d && globMatchFuel fuel ps ds
  | _ + 1, GlobTok.anyOne :: _, [] => false
  | fuel + 1, GlobTok.anyOne :: ps, d :: ds => (d != '/') && globMatchFuel fuel ps ds
  | fuel + 1, GlobTok.star :: ps, [] => globMatchFuel fuel ps []
  | fuel + 1, GlobTok.star :: ps, d :: ds =>
      globMatchFuel fuel ps (d :: ds) ||
        ((d != '/') && globMatchFuel fuel (GlobTok.star :: ps) ds)

/-- Go glob matching on tokens (with always-sufficient fuel). -/
def globToksMatch (p : List GlobTok) (name : Str) : Bool :=
  globMatchFuel (p.length + name.length + 1) p name

/-- Tokenizer for Go glob patterns, restricted to the fragment without
    character classes and escapes: `none` marks patterns outside the
    fragment and matches nothing (for Go, `Glob` errors on a malformed
    pattern and the callers return no files).  The rules' own pattern text
    only inserts the metacharacter `*`; configured strings containing `[`
    or a backslash are outside the model. -/
def parseGlob : Str → Option (List GlobTok)
  | [] => some []
  | c :: cs =>
    if c = '[' ∨ c = '\\' then none
    else
      match parseGlob cs with
      | none => none
      | some ts =>
        some ((if c = '*' then GlobTok.star
               else if c = '?' then GlobTok.anyOne
               else GlobTok.lit c) :: ts)

/-- Go `path.Match` on the modelled fragment: tokenize the pattern and run
    the token matcher. -/
def goGlobMatches (pat name : Str) : Bool :=
  match parseGlob pat with
  | none => false
  | some ts => globToksMatch ts name

/-- Whether every character of `s` is glob-literal (no star, question
    mark, opening bracket, or backslash). -/
def globLiteral (s : Str) : Bool :=
  s.all (fun c => c != '*' && c != '?' && c != '[' && c != '\\')

/-- Split a string at the last occurrence of `sep`, when one occurs. -/
def splitLastChar (sep : Char) : Str → Option (Str × Str)
  | [] => none
  | c :: rest =>
    match splitLastChar sep rest with
    | some (d, b) => some (c :: d, b)
    | none => if c = sep then some ([], rest) else none

theorem splitLastChar_none {sep : Char} {f : Str}
    (h : splitLastChar sep f = none) : sep ∉ f := by
  induction f with
  | nil => simp
  | cons c rest ih =>
    simp only [splitLastChar] at h
    cases hr : splitLastChar sep rest with
    | some p => simp [hr] at h
    | none =>
      simp only [hr] at h
      split at h
      · exact Option.noConfusion h
      next hc =>
        simp only [List.mem_cons, not_or]
        exact ⟨fun he => hc he.symm, ih hr⟩

theorem splitLastChar_some {sep : Char} {f d b : Str}
    (h : splitLastChar sep f = some (d, b)) :
    f = d ++ sep :: b ∧ sep ∉ b := by
  induction f generalizing d b with
  | nil => exact Option.noConfusion h
  | cons c rest ih =>
    simp only [splitLastChar] at h
    cases hr : splitLastChar sep rest with
    | some p =>
      obtain ⟨d0, b0⟩ := p
      simp only [hr, Option.some.injEq, Prod.mk.injEq] at h
      obtain ⟨hd, hb⟩ := h
      obtain ⟨h1, h2⟩ := ih hr
      subst hd
      subst hb
      constructor
      · rw [List.cons_append, ← h1]
      · exact h2
    | none =>
      simp only [hr] at h
      split at h
      next hc =>
        simp only [Option.some.injEq, Prod.mk.injEq] at h
        obtain ⟨hd, hb⟩ := h
        subst hc
        subst hb
        rw [← hd]
        exact ⟨rfl, splitLastChar_none hr⟩
      · exact Option.noConfusion h

/-- Go `filepath.Base`, for cleaned paths without a trailing separator. -/
def goFilepathBase (s : Str) : Str :=
  match splitLastChar '/' s with
  | some (_, b) => b
  | none => s

/-- Go `filepath.Dir`, for cleaned paths. -/
def goFilepathDir (s : Str) : Str :=
  match splitLastChar '/' s with
  | some ([], _) => ['/']
  | some (d, _) => d
  | none => ['.']

/-- Go `filepath.Ext`: the suffix starting at the final dot of the final
    path element (empty when there is no dot). -/
def goFilepathExt (s : Str) : Str :=
  match splitLastChar '.' (goFilepathBase s) with
  | some (_, b) => '.' :: b
  | none => []

/-- Go `filepath.Join` of a cleaned directory and a base name. -/
def goFilepathJoin (d n : Str) : Str :=
  if d = ['.'] then n else if d = ['/'] then '/' :: n else d ++ '/' :: n

/-- Model of `SizeLimitRotateRule.parseFilename`: the base name split into the part
    before the extension, and the extension. -/
def parseFilename (filename : Str) : Str × Str :=
  let logName := goFilepathBase filename
  let ext := goFilepathExt filename
  (logName.take (logName.length - ext.length), ext)

theorem parseFilename_append (f : Str) :
    (parseFilename f).1 ++ (parseFilename f).2 = goFilepathBase f := by
  unfold parseFilename goFilepathExt
  cases hd : splitLastChar '.' (goFilepathBase f) with
  | none => simp
  | some p =>
    obtain ⟨d, b⟩ := p
    obtain ⟨h1, _⟩ := splitLastChar_some hd
    simp only
    rw [h1]
    have hlen : (d ++ '.' :: b).length - ('.' :: b).length = d.length := by
      simp
    rw [hlen, List.take_left]

/-- The ordering used to model Go `sort.Strings`. -/
def strLeOrd (a b : Str) : Prop := goStrLe a b = true

instance : DecidableRel strLeOrd := fun _ _ => instDecidableEqBool _ _

instance : IsTotal Str strLeOrd := ⟨by
  intro a b
  simp only [strLeOrd, goStrLe, Bool.not_eq_true']
  cases h : goStrLt b a with
  | false => exact Or.inl rfl
  | true => exact Or.inr (goStrLt_asymm h)⟩

instance : IsTrans Str strLeOrd := ⟨fun _ _ _ => goStrLe_trans⟩

/-- Go `sort.Strings`, modelled as a sort by byte-wise `<=`. -/
def sortStrings (l : List Str) : List Str := List.insertionSort strLeOrd l

theorem sortStrings_sorted (l : List Str) :
    List.Sorted strLeOrd (sortStrings l) :=
  List.sorted_insertionSort strLeOrd l

theorem mem_sortStrings {l : List Str} {x : Str} :
    x ∈ sortStrings l ↔ x ∈ l :=
  List.mem_insertionSort strLeOrd

/-- In a `<=`-sorted list, every element below the bound `b` is kept by
    `takeWhile (goStrLt . b)`. -/
theorem mem_takeWhile_of_sorted {l : List Str} {b f : Str}
    (hs : List.Sorted strLeOrd l) (hf : f ∈ l) (hlt : goStrLt f b = true) :
    f ∈ l.takeWhile (fun g => goStrLt g b) := by
  induction l with
  | nil => exact absurd hf (by simp)
  | cons x xs ih =>
    rw [List.sorted_cons] at hs
    obtain ⟨hx, hxs⟩ := hs
    rcases List.mem_cons.mp hf with rfl | hmem
    · rw [List.takeWhile_cons, if_pos hlt]
      exact List.mem_cons_self _ _
    · have hxb : goStrLt x b = true := goStrLt_of_le_of_lt (hx f hmem) hlt
      rw [List.takeWhile_cons, if_pos hxb]
      exact List.mem_cons_of_mem _ (ih hxs hmem)

/-- The constant `gzipExt = ".gz"`. -/
def gzipExtStr : Str := ['.', 'g', 'z']

/-- Model of `DailyRotateRule`: the daily rotation rule.  `days : int`, `gzip : bool`
    as in the Go struct; the `rotatedTime` label is a formatted date. -/
structure DailyRotateRule where
  rotatedTime : Str
  filename : Str
  delimiter : Str
  days : Int
  gzip : Bool
  deriving DecidableEq

/-- Model of `HourRotateRule`: the hourly rotation rule. -/
structure HourRotateRule where
  rotatedTime : Str
  filename : Str
  delimiter : Str
  hours : Int
  gzip : Bool
  deriving DecidableEq

/-- Model of `SizeLimitRotateRule` embeds `DailyRotateRule` and adds the size and
    backup-count limits (`maxSize` is already in bytes). -/
structure SizeLimitRotateRule extends DailyRotateRule where
  maxSize : Int
  maxBackups : Int
  deriving DecidableEq

/-- Model of `DailyRotateRule.BackupFileName`, with `getNowDate()` passed as `nowDate`. -/
def DailyRotateRule.BackupFileName (r : DailyRotateRule) (nowDate : Str) : Str :=
  r.filename ++ r.delimiter ++ nowDate

/-- Model of `DailyRotateRule.MarkRotated`, with `getNowDate()` passed as `nowDate`. -/
def DailyRotateRule.MarkRotated (r : DailyRotateRule) (nowDate : Str) : DailyRotateRule :=
  { r with rotatedTime := nowDate }

/-- Model of `DailyRotateRule.ShallRotate`: the size argument is ignored. -/
def DailyRotateRule.ShallRotate (r : DailyRotateRule) (nowDate : Str) (_size : Int) : Bool :=
  decide (0 < r.rotatedTime.length) && decide (nowDate ≠ r.rotatedTime)

/-- Model of `DailyRotateRule.OutdatedFiles`.  The glob over
    `filename ++ delimiter ++ "*" (++ ".gz")` is modelled as a filter of the
    directory entries; `boundary` is the formatted `now - 24h*days`. -/
def DailyRotateRule.OutdatedFiles (r : DailyRotateRule) (boundary : Str)
    (entries : List Str) : List Str :=
  if r.days ≤ 0 then []
  else
    (entries.filter (fun e =>
        goGlobMatches (r.filename ++ r.delimiter ++ '*' ::
          (if r.gzip then gzipExtStr else [])) e)).filter
      (fun f => goStrLt f (r.filename ++ r.delimiter ++ boundary ++
        (if r.gzip then gzipExtStr else [])))

/-- Model of `HourRotateRule.BackupFileName`, with `getNowHour()` passed as `nowHour`. -/
def HourRotateRule.BackupFileName (r : HourRotateRule) (nowHour : Str) : Str :=
  r.filename ++ r.delimiter ++ nowHour

/-- Model of `HourRotateRule.MarkRotated`. -/
def HourRotateRule.MarkRotated (r : HourRotateRule) (nowHour : Str) : HourRotateRule :=
  { r with rotatedTime := nowHour }

/-- Model of `HourRotateRule.ShallRotate`: the size argument is ignored. -/
def HourRotateRule.ShallRotate (r : HourRotateRule) (nowHour : Str) (_size : Int) : Bool :=
  decide (0 < r.rotatedTime.length) && decide (nowHour ≠ r.rotatedTime)

/-- Model of `HourRotateRule.OutdatedFiles`; `boundary` is the formatted `now - hours`. -/
def HourRotateRule.OutdatedFiles (r : HourRotateRule) (boundary : Str)
    (entries : List Str) : List Str :=
  if r.hours ≤ 0 then []
  else
    (entries.filter (fun e =>
        goGlobMatches (r.filename ++ r.delimiter ++ '*' ::
          (if r.gzip then gzipExtStr else [])) e)).filter
      (fun f => goStrLt f (r.filename ++ r.delimiter ++ boundary ++
        (if r.gzip then gzipExtStr else [])))

/-- Model of `SizeLimitRotateRule.BackupFileName`, with the full timestamp
    `getNowDateInRFC3339Format()` passed as `nowStamp`. -/
def SizeLimitRotateRule.BackupFileName (r : SizeLimitRotateRule) (nowStamp : Str) : Str :=
  let dir := goFilepathDir r.filename
  let pe := parseFilename r.filename
  goFilepathJoin dir (pe.1 ++ r.delimiter ++ nowStamp ++ pe.2)

/-- Model of `SizeLimitRotateRule.MarkRotated`. -/
def SizeLimitRotateRule.MarkRotated (r : SizeLimitRotateRule) (nowStamp : Str) :
    SizeLimitRotateRule :=
  { r with rotatedTime := nowStamp }

/-- Model of `SizeLimitRotateRule.ShallRotate`: `maxSize > 0 && maxSize < size`. -/
def SizeLimitRotateRule.ShallRotate (r : SizeLimitRotateRule) (size : Int) : Bool :=
  decide (0 < r.maxSize) && decide (r.maxSize < size)

/-- The literal part of the size-rule glob before the `*`: the pattern is
    built by raw concatenation `dir + Separator + ...` exactly as in the
    source. -/
def SizeLimitRotateRule.patFront (r : SizeLimitRotateRule) : Str :=
  goFilepathDir r.filename ++ '/' :: ((parseFilename r.filename).1 ++ r.delimiter)

/-- The literal part of the size-rule glob after the `*`. -/
def SizeLimitRotateRule.patBack (r : SizeLimitRotateRule) : Str :=
  if r.gzip then (parseFilename r.filename).2 ++ gzipExtStr
  else (parseFilename r.filename).2

/-- The glob of `SizeLimitRotateRule.OutdatedFiles`: the matching directory
    entries, sorted as by `sort.Strings`. -/
def SizeLimitRotateRule.globFiles (r : SizeLimitRotateRule) (entries : List Str) : List Str :=
  sortStrings (entries.filter (fun e => goGlobMatches (r.patFront ++ '*' :: r.patBack) e))

/-- The count-based excess of `SizeLimitRotateRule.OutdatedFiles`:
    `files[:len(files)-maxBackups]` when the backup count is exceeded. -/
def SizeLimitRotateRule.excessFiles (r : SizeLimitRotateRule) (entries : List Str) : List Str :=
  if 0 < r.maxBackups ∧ r.maxBackups < ((r.globFiles entries).length : Int) then
    (r.globFiles entries).take ((r.globFiles entries).length - r.maxBackups.toNat)
  else []

/-- The files kept after count-based pruning: `files[len(files)-maxBackups:]`. -/
def SizeLimitRotateRule.keptFiles (r : SizeLimitRotateRule) (entries : List Str) : List Str :=
  if 0 < r.maxBackups ∧ r.maxBackups < ((r.globFiles entries).length : Int) then
    (r.globFiles entries).drop ((r.globFiles entries).length - r.maxBackups.toNat)
  else r.globFiles entries

/-- The age boundary file name of `SizeLimitRotateRule.OutdatedFiles`. -/
def SizeLimitRotateRule.boundaryFileName (r : SizeLimitRotateRule) (boundary : Str) : Str :=
  goFilepathJoin (goFilepathDir r.filename)
      ((parseFilename r.filename).1 ++ r.delimiter ++ boundary ++ (parseFilename r.filename).2) ++
    (if r.gzip then gzipExtStr else [])

/-- Model of `SizeLimitRotateRule.OutdatedFiles`: the union (a Go map, here a
    de-duplicated list) of the count-based excess and the age-based scan of
    the kept files, which stops at the first file `>= boundaryFile`. -/
def SizeLimitRotateRule.OutdatedFiles (r : SizeLimitRotateRule) (boundary : Str)
    (entries : List Str) : List Str :=
  (r.excessFiles entries ++
    (if 0 < r.days then
      (r.keptFiles entries).takeWhile (fun f => goStrLt f (r.boundaryFileName boundary))
    else [])).dedup

/-- Model of `bufferPool`: the configured capacity and the outstanding-buffer count
    maintained by atomic operations (Go `int64`s, modelled as `Int`). -/
structure BufferPool where
  size : Int
  count : Int
  deriving DecidableEq

/-- Model of `getBuffer` under sequential semantics (the CAS loop succeeds on its
    first attempt): returns a buffer unless `count > size`. -/
def getBuffer (p : BufferPool) : Option Unit × BufferPool :=
  if p.size < p.count then (none, p)
  else (some (), { p with count := p.count + 1 })

/-- Model of `putBuffer`: returns a buffer to the pool and decrements the count. -/
def putBuffer (p : BufferPool) : BufferPool :=
  { p with count := p.count - 1 }

/-- Runs of `k` successive `getBuffer` calls with no intervening `putBuffer`:
    the list of results and the final pool state. -/
def acquireSeq (p : BufferPool) : Nat → List (Option Unit) × BufferPool
  | 0 => ([], p)
  | n + 1 =>
    let r := getBuffer p
    let rest := acquireSeq r.2 n
    (r.1 :: rest.1, rest.2)

theorem acquireSeq_ok {k : Nat} :
    ∀ {p : BufferPool}, (k : Int) + p.count ≤ p.size + 1 →
      acquireSeq p k = (List.replicate k (some ()), ⟨p.size, p.count + k⟩) := by
  induction k with
  | zero => intro p _; simp [acquireSeq]
  | succ n ih =>
    intro p hp
    have hle : ¬ p.size < p.count := by omega
    have hstep : getBuffer p = (some (), { p with count := p.count + 1 }) := by
      unfold getBuffer
      rw [if_neg hle]
    have hrec := ih (p := { p with count := p.count + 1 }) (by push_cast at hp ⊢; omega)
    unfold acquireSeq
    simp only [hstep]
    rw [hrec]
    simp only [List.replicate_succ, Prod.mk.injEq, List.cons.injEq, BufferPool.mk.injEq,
      true_and, and_true]
    push_cast
    omega

/-- The writer-side rule operations consumed by `writeBuffer`, packaged for
    a rule-state type `σ` with the current time label already applied. -/
structure RuleModel (σ : Type) where
  shallRotate : σ → Int → Bool
  markRotated : σ → σ
  backupFileName : σ → Str

/-- Outcome oracle for the filesystem calls made by `rotate`. -/
structure RotEnv where
  closeOk : Bool
  statExists : Bool
  renameOk : Bool
  createOk : Bool
  deriving DecidableEq

/-- Model of `RotateLogger` worker state.  `disk` accumulates every byte successfully
    written through the handle (a rename preserves them), `rotations` counts
    the error-free completions of `rotate`. -/
structure WState (σ : Type) where
  rule : σ
  backup : Str
  fpOpen : Bool
  currentSize : Int
  disk : Str
  rotations : Nat

/-- Model of `RotateLogger.close`: fsync and close; the handle is cleared even when
    sync or close fail, and the joined error is returned. -/
def wClose (closeOk : Bool) (s : WState σ) : WState σ × Bool :=
  if s.fpOpen then ({ s with fpOpen := false }, !closeOk)
  else (s, false)

/-- Model of `RotateLogger.rotate` under outcome oracle `e`: close the current file,
    rename it to the pending backup name when it exists, recompute the next
    backup name, and create a fresh active file.  The second component is
    whether an error was returned. -/
def wRotate (R : RuleModel σ) (e : RotEnv) (s : WState σ) : WState σ × Bool :=
  let cl := wClose e.closeOk s
  if cl.2 then (cl.1, true)
  else
    let s1 := cl.1
    if e.statExists ∧ 0 < s1.backup.length then
      if e.renameOk then
        let s2 := { s1 with backup := R.backupFileName s1.rule }
        if e.createOk then
          ({ s2 with fpOpen := true, rotations := s2.rotations + 1 }, false)
        else (s2, true)
      else (s1, true)
    else
      let s2 := { s1 with backup := R.backupFileName s1.rule }
      if e.createOk then
        ({ s2 with fpOpen := true, rotations := s2.rotations + 1 }, false)
      else (s2, true)

/-- Model of `RotateLogger.writeBuffer` under outcome oracle `e`: decide rotation on
    the prospective size, mark-rotated and reset `currentSize` only on
    rotation success, then write the buffer when the handle is open (the
    `WriteTo` itself is modelled as succeeding).  Returns the new state and
    the reported byte count. -/
def writeBuffer (R : RuleModel σ) (e : RotEnv) (s : WState σ) (buff : Str) :
    WState σ × Int :=
  let s :=
    if R.shallRotate s.rule (s.currentSize + buff.length) then
      let ro := wRotate R e s
      if ro.2 then ro.1
      else { ro.1 with rule := R.markRotated ro.1.rule, currentSize := 0 }
    else s
  if s.fpOpen then
    ({ s with disk := s.disk ++ buff, currentSize := s.currentSize + buff.length },
      (buff.length : Int))
  else (s, 0)

/-- The `RotateRule` operations of `SizeLimitRotateRule` packaged for the
    writer model, with the current timestamp fixed to `now`. -/
def sizeRuleOps (now : Str) : RuleModel SizeLimitRotateRule where
  shallRotate := fun r size => r.ShallRotate size
  markRotated := fun r => r.MarkRotated now
  backupFileName := fun r => r.BackupFileName now

/-- The externally visible state of `RotateLogger.Close`. -/
structure CloseState where
  closed : Bool
  fpOpen : Bool
  deriving DecidableEq

/-- Model of `RotateLogger.Close`: return nil when already closed; otherwise close the
    done channel and wait for the worker, whose deferred cleanup flushes and
    closes the file handle (ignoring any error) and sets it to nil, then run
    `l.close()` — which finds the handle already nil.  `closeOk` is the
    outcome of a sync+close pair on an open handle.  The second component is
    whether a non-nil error is returned. -/
def CloseOp (closeOk : Bool) (s : CloseState) : CloseState × Bool :=
  if s.closed then (s, false)
  else
    let afterWorker : CloseState := { closed := true, fpOpen := false }
    if afterWorker.fpOpen then ({ afterWorker with fpOpen := false }, !closeOk)
    else (afterWorker, false)

/-- Outcome oracle for the filesystem calls made by `gzipFile`. -/
structure GzEnv where
  openOk : Bool
  createOk : Bool
  copyOk : Bool
  closeWOk : Bool
  closeOutOk : Bool
  closeInOk : Bool
  removeOk : Bool
  deriving DecidableEq

/-- Model of `gzipFile` under outcome oracle `e`, following the Go control flow with
    its two deferred blocks (run in LIFO order): the first component is
    whether `fsys.Remove(file)` was invoked on the original file, the
    second whether a non-nil error was returned. -/
def gzipFile (e : GzEnv) : Bool × Bool :=
  if !e.openOk then (false, true)
  else if !e.createOk then
    (false, true)
  else if !e.copyOk then
    (false, true)
  else
    let errAfterCloseW := !e.closeWOk
    let errAfterCloseOut := if errAfterCloseW then true else !e.closeOutOk
    if errAfterCloseOut then (false, true)
    else (true, !e.removeOk)

theorem acquireSeq_add (m n : Nat) :
    ∀ p : BufferPool,
      (acquireSeq p (m + n)).1
        = (acquireSeq p m).1 ++ (acquireSeq (acquireSeq p m).2 n).1 := by
  induction m with
  | zero => intro p; simp [acquireSeq]
  | succ k ih =>
    intro p
    have h1 : k + 1 + n = (k + n) + 1 := by omega
    rw [h1]
    simp only [acquireSeq]
    rw [ih]
    simp

theorem wRotate_spec (R : RuleModel σ) (e : RotEnv) (s : WState σ) :
    (wRotate R e s).1.rule = s.rule ∧
    (wRotate R e s).1.currentSize = s.currentSize ∧
    (wRotate R e s).1.disk = s.disk ∧
    (wRotate R e s).1.fpOpen = !(wRotate R e s).2 := by
  rcases e with ⟨co, st, re, cr⟩
  rcases s with ⟨rule, backup, fp, cs, disk, rot⟩
  cases co <;> cases st <;> cases re <;> cases cr <;> cases fp <;>
    cases backup <;> simp [wRotate, wClose, Nat.succ_pos]

theorem writeBuffer_err (R : RuleModel σ) (e : RotEnv) (s : WState σ) (buff : Str)
    (hfire : R.shallRotate s.rule (s.currentSize + buff.length) = true)
    (herr : (wRotate R e s).2 = true) :
    (writeBuffer R e s buff).1.rule = s.rule ∧
    (writeBuffer R e s buff).1.currentSize = s.currentSize ∧
    (writeBuffer R e s buff).1.disk = s.disk ∧
    (writeBuffer R e s buff).1.fpOpen = false ∧
    (writeBuffer R e s buff).2 = 0 := by
  obtain ⟨h1, h2, h3, h4⟩ := wRotate_spec R e s
  rw [herr] at h4
  simp only [Bool.not_true] at h4
  unfold writeBuffer
  simp [hfire, herr, h1, h2, h3, h4]

theorem writeBuffer_ok (R : RuleModel σ) (e : RotEnv) (s : WState σ) (buff : Str)
    (hfire : R.shallRotate s.rule (s.currentSize + buff.length) = true)
    (hok : (wRotate R e s).2 = false) :
    (writeBuffer R e s buff).1.rule = R.markRotated s.rule ∧
    (writeBuffer R e s buff).1.currentSize = buff.length ∧
    (writeBuffer R e s buff).1.disk = s.disk ++ buff ∧
    (writeBuffer R e s buff).2 = buff.length := by
  obtain ⟨h1, h2, h3, h4⟩ := wRotate_spec R e s
  rw [hok] at h4
  simp only [Bool.not_false] at h4
  unfold writeBuffer
  simp [hfire, hok, h1, h2, h3, h4]

theorem writeBuffer_nofire (R : RuleModel σ) (e : RotEnv) (s : WState σ) (buff : Str)
    (hfire : R.shallRotate s.rule (s.currentSize + buff.length) = false) :
    (writeBuffer R e s buff).1.rule = s.rule ∧
    ((writeBuffer R e s buff).1.currentSize = s.currentSize + buff.length ∨
     (writeBuffer R e s buff).1.currentSize = s.currentSize) := by
  unfold writeBuffer
  by_cases hf : s.fpOpen <;> simp [hfire, hf]

theorem mem_dailyOutdated {r : DailyRotateRule} {boundary : Str} {entries : List Str}
    {f : Str} (h : f ∈ r.OutdatedFiles boundary entries) :
    goGlobMatches (r.filename ++ r.delimiter ++ '*' ::
      (if r.gzip then gzipExtStr else [])) f = true ∧
    goStrLt f (r.filename ++ r.delimiter ++ boundary ++
      (if r.gzip then gzipExtStr else [])) = true ∧
    0 < r.days := by
  unfold DailyRotateRule.OutdatedFiles at h
  split at h
  · exact absurd h (by simp)
  next hd =>
    rw [List.mem_filter] at h
    obtain ⟨h1, h2⟩ := h
    rw [List.mem_filter] at h1
    exact ⟨h1.2, h2, by omega⟩

theorem mem_hourOutdated {r : HourRotateRule} {boundary : Str} {entries : List Str}
    {f : Str} (h : f ∈ r.OutdatedFiles boundary entries) :
    goGlobMatches (r.filename ++ r.delimiter ++ '*' ::
      (if r.gzip then gzipExtStr else [])) f = true ∧
    goStrLt f (r.filename ++ r.delimiter ++ boundary ++
      (if r.gzip then gzipExtStr else [])) = true ∧
    0 < r.hours := by
  unfold HourRotateRule.OutdatedFiles at h
  split at h
  · exact absurd h (by simp)
  next hd =>
    rw [List.mem_filter] at h
    obtain ⟨h1, h2⟩ := h
    rw [List.mem_filter] at h1
    exact ⟨h1.2, h2, by omega⟩

theorem mem_globFiles_matches {r : SizeLimitRotateRule} {entries : List Str} {f : Str}
    (h : f ∈ r.globFiles entries) :
    goGlobMatches (r.patFront ++ '*' :: r.patBack) f = true := by
  unfold SizeLimitRotateRule.globFiles at h
  rw [mem_sortStrings] at h
  exact (List.mem_filter.mp h).2

theorem excess_sublist_glob (r : SizeLimitRotateRule) (entries : List Str) :
    List.Sublist (r.excessFiles entries) (r.globFiles entries) := by
  unfold SizeLimitRotateRule.excessFiles
  split
  · exact List.take_sublist _ _
  · exact List.nil_sublist _

theorem kept_sublist_glob (r : SizeLimitRotateRule) (entries : List Str) :
    List.Sublist (r.keptFiles entries) (r.globFiles entries) := by
  unfold SizeLimitRotateRule.keptFiles
  split
  · exact List.drop_sublist _ _
  · exact List.Sublist.refl _

theorem glob_eq_excess_append_kept (r : SizeLimitRotateRule) (entries : List Str) :
    r.globFiles entries = r.excessFiles entries ++ r.keptFiles entries := by
  unfold SizeLimitRotateRule.excessFiles SizeLimitRotateRule.keptFiles
  by_cases h : 0 < r.maxBackups ∧ r.maxBackups < ((r.globFiles entries).length : Int)
  · rw [if_pos h, if_pos h, List.take_append_drop]
  · rw [if_neg h, if_neg h, List.nil_append]

theorem kept_sorted (r : SizeLimitRotateRule) (entries : List Str) :
    List.Sorted strLeOrd (r.keptFiles entries) :=
  List.Pairwise.sublist (kept_sublist_glob r entries) (sortStrings_sorted _)

theorem mem_sizeOutdated {r : SizeLimitRotateRule} {boundary : Str} {entries : List Str}
    {f : Str} :
    f ∈ r.OutdatedFiles boundary entries ↔
      (f ∈ r.excessFiles entries ∨
        (0 < r.days ∧ f ∈ r.globFiles entries ∧
          goStrLt f (r.boundaryFileName boundary) = true)) := by
  unfold SizeLimitRotateRule.OutdatedFiles
  rw [List.mem_dedup, List.mem_append]
  constructor
  · rintro (hx | ha)
    · exact Or.inl hx
    · by_cases hd : 0 < r.days
      · rw [if_pos hd] at ha
        refine Or.inr ⟨hd, ?_, ?_⟩
        · exact (kept_sublist_glob r entries).subset ((List.takeWhile_sublist _).subset ha)
        · simpa using List.mem_takeWhile_imp ha
      · rw [if_neg hd] at ha
        exact absurd ha (by simp)
  · rintro (hx | ⟨hd, hg, hlt⟩)
    · exact Or.inl hx
    · rw [glob_eq_excess_append_kept] at hg
      rcases List.mem_append.mp hg with hx | hk
      · exact Or.inl hx
      · refine Or.inr ?_
        rw [if_pos hd]
        exact mem_takeWhile_of_sorted (kept_sorted r entries) hk hlt


theorem goFilepathDir_eq_none {s : Str} (h : splitLastChar '/' s = none) :
    goFilepathDir s = ['.'] := by
  simp [goFilepathDir, h]

theorem goFilepathDir_eq_some_nil {s b : Str} (h : splitLastChar '/' s = some ([], b)) :
    goFilepathDir s = ['/'] := by
  simp [goFilepathDir, h]

theorem goFilepathDir_eq_some {s : Str} {d b : Str} (h : splitLastChar '/' s = some (d, b))
    (hd : d ≠ []) : goFilepathDir s = d := by
  cases d with
  | nil => exact absurd rfl hd
  | cons x xs => simp [goFilepathDir, h]

theorem goFilepathBase_eq_none {s : Str} (h : splitLastChar '/' s = none) :
    goFilepathBase s = s := by
  simp [goFilepathBase, h]

theorem goFilepathBase_eq_some {s d b : Str} (h : splitLastChar '/' s = some (d, b)) :
    goFilepathBase s = b := by
  simp [goFilepathBase, h]

theorem patBack_len (r : SizeLimitRotateRule) :
    (parseFilename r.filename).2.length ≤ r.patBack.length := by
  unfold SizeLimitRotateRule.patBack
  split <;> simp

theorem globMatchFuel_congr :
    ∀ (f1 f2 : Nat) (p : List GlobTok) (name : Str),
      p.length + name.length < f1 → p.length + name.length < f2 →
      globMatchFuel f1 p name = globMatchFuel f2 p name := by
  intro f1
  induction f1 with
  | zero => intro f2 p name h1 h2; omega
  | succ g ih =>
    intro f2 p name h1 h2
    cases f2 with
    | zero => omega
    | succ h =>
      cases p with
      | nil => rfl
      | cons t ps =>
        cases t with
        | lit c =>
          cases name with
          | nil => rfl
          | cons d ds =>
            simp only [globMatchFuel]
            rw [ih h ps ds (by simp only [List.length_cons] at h1 ⊢; omega)
                (by simp only [List.length_cons] at h2 ⊢; omega)]
        | anyOne =>
          cases name with
          | nil => rfl
          | cons d ds =>
            simp only [globMatchFuel]
            rw [ih h ps ds (by simp only [List.length_cons] at h1 ⊢; omega)
                (by simp only [List.length_cons] at h2 ⊢; omega)]
        | star =>
          cases name with
          | nil =>
            simp only [globMatchFuel]
            rw [ih h ps [] (by simp only [List.length_cons] at h1 ⊢; omega)
                (by simp only [List.length_cons] at h2 ⊢; omega)]
          | cons d ds =>
            simp only [globMatchFuel]
            rw [ih h ps (d :: ds) (by simp only [List.length_cons] at h1 ⊢; omega)
                  (by simp only [List.length_cons] at h2 ⊢; omega),
                ih h (GlobTok.star :: ps) ds
                  (by simp only [List.length_cons] at h1 ⊢; omega)
                  (by simp only [List.length_cons] at h2 ⊢; omega)]

theorem globMatchFuel_toks (fuel : Nat) (p : List GlobTok) (name : Str)
    (h : p.length + name.length < fuel) :
    globMatchFuel fuel p name = globToksMatch p name :=
  globMatchFuel_congr fuel (p.length + name.length + 1) p name h (by omega)

theorem globToksMatch_nil (name : Str) : globToksMatch [] name = name.isEmpty := rfl

theorem globToksMatch_lit_nil (c : Char) (ps : List GlobTok) :
    globToksMatch (GlobTok.lit c :: ps) [] = false := rfl

theorem globToksMatch_lit_cons (c : Char) (ps : List GlobTok) (d : Char) (ds : Str) :
    globToksMatch (GlobTok.lit c :: ps) (d :: ds) = (c == d && globToksMatch ps ds) := by
  show (c == d &&
      globMatchFuel ((GlobTok.lit c :: ps).length + (d :: ds).length) ps ds) = _
  rw [globMatchFuel_toks _ ps ds (by simp only [List.length_cons]; omega)]

theorem globToksMatch_any_nil (ps : List GlobTok) :
    globToksMatch (GlobTok.anyOne :: ps) [] = false := rfl

theorem globToksMatch_any_cons (ps : List GlobTok) (d : Char) (ds : Str) :
    globToksMatch (GlobTok.anyOne :: ps) (d :: ds)
      = ((d != '/') && globToksMatch ps ds) := by
  show ((d != '/') &&
      globMatchFuel ((GlobTok.anyOne :: ps).length + (d :: ds).length) ps ds) = _
  rw [globMatchFuel_toks _ ps ds (by simp only [List.length_cons]; omega)]

theorem globToksMatch_star_nil (ps : List GlobTok) :
    globToksMatch (GlobTok.star :: ps) [] = globToksMatch ps [] := by
  show globMatchFuel ((GlobTok.star :: ps).length + ([] : Str).length) ps [] = _
  rw [globMatchFuel_toks _ ps []
      (by simp only [List.length_cons, List.length_nil]; omega)]

theorem globToksMatch_star_cons (ps : List GlobTok) (d : Char) (ds : Str) :
    globToksMatch (GlobTok.star :: ps) (d :: ds)
      = (globToksMatch ps (d :: ds) ||
          ((d != '/') && globToksMatch (GlobTok.star :: ps) ds)) := by
  show (globMatchFuel ((GlobTok.star :: ps).length + (d :: ds).length) ps (d :: ds) ||
      ((d != '/') &&
        globMatchFuel ((GlobTok.star :: ps).length + (d :: ds).length)
          (GlobTok.star :: ps) ds)) = _
  rw [globMatchFuel_toks _ ps (d :: ds) (by simp only [List.length_cons]; omega),
      globMatchFuel_toks _ (GlobTok.star :: ps) ds (by simp only [List.length_cons]; omega)]

theorem parseGlob_append {a b : Str} {ts : List GlobTok}
    (h : parseGlob (a ++ b) = some ts) :
    ∃ ta tb, parseGlob a = some ta ∧ parseGlob b = some tb ∧ ts = ta ++ tb := by
  induction a generalizing ts with
  | nil => exact ⟨[], ts, rfl, h, rfl⟩
  | cons c cs ih =>
    rw [List.cons_append] at h
    unfold parseGlob at h
    split at h
    · exact Option.noConfusion h
    next hc =>
      cases hp : parseGlob (cs ++ b) with
      | none => rw [hp] at h; exact Option.noConfusion h
      | some ts1 =>
        rw [hp] at h
        injection h with h3
        obtain ⟨ta, tb, h1, h2, rfl⟩ := ih hp
        refine ⟨(if c = '*' then GlobTok.star
                 else if c = '?' then GlobTok.anyOne
                 else GlobTok.lit c) :: ta, tb, ?_, h2, ?_⟩
        · unfold parseGlob
          rw [if_neg hc, h1]
        · rw [← h3]
          rfl

theorem parseGlob_literal {s : Str} (h : globLiteral s = true) :
    parseGlob s = some (List.map GlobTok.lit s) := by
  induction s with
  | nil => rfl
  | cons c cs ih =>
    rw [globLiteral, List.all_cons, Bool.and_eq_true] at h
    obtain ⟨hc, hcs⟩ := h
    rw [Bool.and_eq_true, Bool.and_eq_true, Bool.and_eq_true] at hc
    have h1 : c ≠ '*' := by simpa using hc.1.1.1
    have h2 : c ≠ '?' := by simpa using hc.1.1.2
    have h3 : c ≠ '[' := by simpa using hc.1.2
    have h4 : c ≠ '\\' := by simpa using hc.2
    unfold parseGlob
    rw [if_neg (by tauto), ih hcs]
    rw [if_neg h1, if_neg h2]
    rfl

theorem globToksMatch_lits (xs : Str) :
    ∀ (name : Str), globToksMatch (List.map GlobTok.lit xs) name = true ↔ name = xs := by
  induction xs with
  | nil =>
    intro name
    cases name with
    | nil => simp [globToksMatch_nil]
    | cons d ds => simp [globToksMatch_nil]
  | cons c cs ih =>
    intro name
    cases name with
    | nil => simp [globToksMatch_lit_nil]
    | cons d ds =>
      rw [List.map_cons, globToksMatch_lit_cons, Bool.and_eq_true, beq_iff_eq, ih ds]
      constructor
      · rintro ⟨rfl, rfl⟩
        rfl
      · intro h
        injection h with h1 h2
        exact ⟨h1.symm, h2⟩

theorem globToksMatch_lit_front (xs : Str) (rest : List GlobTok) :
    ∀ (name : Str), globToksMatch (List.map GlobTok.lit xs ++ rest) name = true →
      ∃ n2, name = xs ++ n2 ∧ globToksMatch rest n2 = true := by
  induction xs with
  | nil => exact fun name h => ⟨name, rfl, h⟩
  | cons c cs ih =>
    intro name h
    cases name with
    | nil =>
      rw [List.map_cons, List.cons_append, globToksMatch_lit_nil] at h
      exact absurd h (by simp)
    | cons d ds =>
      rw [List.map_cons, List.cons_append, globToksMatch_lit_cons,
        Bool.and_eq_true, beq_iff_eq] at h
      obtain ⟨rfl, h2⟩ := h
      obtain ⟨n2, rfl, h3⟩ := ih ds h2
      exact ⟨n2, rfl, h3⟩

theorem globToksMatch_lit_tail (ts : List GlobTok) :
    ∀ (name tail : Str),
      globToksMatch (ts ++ List.map GlobTok.lit tail) name = true →
      ∃ m, name = m ++ tail := by
  induction ts with
  | nil =>
    intro name tail h
    rw [List.nil_append, globToksMatch_lits] at h
    exact ⟨[], by rw [h, List.nil_append]⟩
  | cons t ts1 ih =>
    cases t with
    | lit c =>
      intro name tail h
      cases name with
      | nil =>
        rw [List.cons_append, globToksMatch_lit_nil] at h
        exact absurd h (by simp)
      | cons d ds =>
        rw [List.cons_append, globToksMatch_lit_cons, Bool.and_eq_true] at h
        obtain ⟨m, rfl⟩ := ih ds tail h.2
        exact ⟨d :: m, rfl⟩
    | anyOne =>
      intro name tail h
      cases name with
      | nil =>
        rw [List.cons_append, globToksMatch_any_nil] at h
        exact absurd h (by simp)
      | cons d ds =>
        rw [List.cons_append, globToksMatch_any_cons, Bool.and_eq_true] at h
        obtain ⟨m, rfl⟩ := ih ds tail h.2
        exact ⟨d :: m, rfl⟩
    | star =>
      intro name
      induction name with
      | nil =>
        intro tail h
        rw [List.cons_append, globToksMatch_star_nil] at h
        exact ih [] tail h
      | cons d ds ihn =>
        intro tail h
        rw [List.cons_append, globToksMatch_star_cons, Bool.or_eq_true] at h
        rcases h with h | h
        · exact ih (d :: ds) tail h
        · rw [Bool.and_eq_true, ← List.cons_append] at h
          obtain ⟨m, rfl⟩ := ihn tail h.2
          exact ⟨d :: m, rfl⟩

theorem goGlobMatches_literal_decomp {pre post name : Str}
    (hpre : globLiteral pre = true) (hpost : globLiteral post = true)
    (h : goGlobMatches (pre ++ '*' :: post) name = true) :
    ∃ mid, name = pre ++ mid ++ post := by
  unfold goGlobMatches at h
  cases hp : parseGlob (pre ++ '*' :: post) with
  | none => rw [hp] at h; exact absurd h (by simp)
  | some ts =>
    rw [hp] at h
    obtain ⟨ta, tb, h1, h2, rfl⟩ := parseGlob_append hp
    rw [parseGlob_literal hpre] at h1
    injection h1 with h1
    have h3 : parseGlob ('*' :: post)
        = some (GlobTok.star :: List.map GlobTok.lit post) := by
      unfold parseGlob
      rw [if_neg (by simp), parseGlob_literal hpost]
      rfl
    rw [h3] at h2
    injection h2 with h2
    rw [← h1, ← h2] at h
    obtain ⟨n1, rfl, h4⟩ := globToksMatch_lit_front pre _ name h
    obtain ⟨m, rfl⟩ := globToksMatch_lit_tail [GlobTok.star] n1 post h4
    exact ⟨m, by rw [List.append_assoc]⟩

theorem goGlobMatches_gz_tail {q name : Str}
    (h : goGlobMatches (q ++ gzipExtStr) name = true) :
    endsWithStr name gzipExtStr = true := by
  unfold goGlobMatches at h
  cases hp : parseGlob (q ++ gzipExtStr) with
  | none => rw [hp] at h; exact absurd h (by simp)
  | some ts =>
    rw [hp] at h
    obtain ⟨ta, tb, h1, h2, rfl⟩ := parseGlob_append hp
    have h3 : parseGlob gzipExtStr = some (List.map GlobTok.lit gzipExtStr) :=
      parseGlob_literal (by decide)
    rw [h3] at h2
    injection h2 with h2
    rw [← h2] at h
    obtain ⟨m, rfl⟩ := globToksMatch_lit_tail ta name gzipExtStr h
    exact endsWithStr_append m gzipExtStr

theorem globLiteral_append {a b : Str} :
    globLiteral (a ++ b) = (globLiteral a && globLiteral b) := by
  simp [globLiteral, List.all_append]

theorem globLiteral_sub {s t : Str} (hsub : t ⊆ s) (h : globLiteral s = true) :
    globLiteral t = true := by
  rw [globLiteral, List.all_eq_true] at h ⊢
  exact fun c hc => h c (hsub hc)

theorem globLiteral_base {s : Str} (h : globLiteral s = true) :
    globLiteral (goFilepathBase s) = true := by
  cases hs : splitLastChar '/' s with
  | none => rw [goFilepathBase_eq_none hs]; exact h
  | some p =>
    obtain ⟨d, b⟩ := p
    rw [goFilepathBase_eq_some hs]
    obtain ⟨hfeq, -⟩ := splitLastChar_some hs
    refine globLiteral_sub ?_ h
    rw [hfeq]
    exact (List.subset_cons_self '/' b).trans (List.subset_append_right d ('/' :: b))

theorem globLiteral_dir {s : Str} (h : globLiteral s = true) :
    globLiteral (goFilepathDir s) = true := by
  cases hs : splitLastChar '/' s with
  | none => rw [goFilepathDir_eq_none hs]; decide
  | some p =>
    obtain ⟨d, b⟩ := p
    cases d with
    | nil => rw [goFilepathDir_eq_some_nil hs]; decide
    | cons x xs =>
      rw [goFilepathDir_eq_some hs (by simp)]
      obtain ⟨hfeq, -⟩ := splitLastChar_some hs
      refine globLiteral_sub ?_ h
      rw [hfeq]
      exact List.subset_append_left _ _

theorem globLiteral_parse1 {s : Str} (h : globLiteral s = true) :
    globLiteral (parseFilename s).1 = true :=
  globLiteral_sub (List.take_subset _ _) (globLiteral_base h)

theorem globLiteral_parse2 {s : Str} (h : globLiteral s = true) :
    globLiteral (parseFilename s).2 = true := by
  have hb := globLiteral_base h
  show globLiteral (goFilepathExt s) = true
  unfold goFilepathExt
  cases hd : splitLastChar '.' (goFilepathBase s) with
  | none => rfl
  | some p =>
    obtain ⟨d2, b2⟩ := p
    simp only
    obtain ⟨hbeq, -⟩ := splitLastChar_some hd
    have hb2 : globLiteral b2 = true := by
      refine globLiteral_sub ?_ hb
      rw [hbeq]
      exact (List.subset_cons_self '.' b2).trans (List.subset_append_right d2 ('.' :: b2))
    rw [globLiteral, List.all_cons]
    rw [globLiteral] at hb2
    rw [hb2]
    decide

theorem globLiteral_patFront {r : SizeLimitRotateRule}
    (hf : globLiteral r.filename = true) (hδ : globLiteral r.delimiter = true) :
    globLiteral r.patFront = true := by
  have h1 := globLiteral_dir hf
  have h2 := globLiteral_parse1 hf
  unfold SizeLimitRotateRule.patFront
  simp only [globLiteral, List.all_append, List.all_cons, Bool.and_eq_true] at h1 h2 hδ ⊢
  exact ⟨h1, by decide, h2, hδ⟩

theorem globLiteral_patBack {r : SizeLimitRotateRule}
    (hf : globLiteral r.filename = true) : globLiteral r.patBack = true := by
  have h2 := globLiteral_parse2 hf
  unfold SizeLimitRotateRule.patBack
  split
  · rw [globLiteral_append, h2]
    decide
  · exact h2

theorem globLiteral_gzOpt (b : Bool) :
    globLiteral (if b then gzipExtStr else []) = true := by
  cases b <;> decide

theorem active_no_globMatch {f δ post : Str} (hδ : δ ≠ [])
    (hf : globLiteral f = true) (hδl : globLiteral δ = true)
    (hpost : globLiteral post = true) :
    goGlobMatches (f ++ δ ++ '*' :: post) f = false := by
  cases hm : goGlobMatches (f ++ δ ++ '*' :: post) f with
  | false => rfl
  | true =>
    exfalso
    have hpre : globLiteral (f ++ δ) = true := by
      rw [globLiteral_append, hf, hδl]
      rfl
    obtain ⟨mid, heq⟩ := goGlobMatches_literal_decomp hpre hpost hm
    have hlen := congrArg List.length heq
    have hδlen : 0 < δ.length := List.length_pos.mpr hδ
    rw [List.length_append, List.length_append, List.length_append] at hlen
    omega

theorem sizeActive_no_globMatch {r : SizeLimitRotateRule} (hδ : r.delimiter ≠ [])
    (hf : globLiteral r.filename = true) (hδl : globLiteral r.delimiter = true) :
    goGlobMatches (r.patFront ++ '*' :: r.patBack) r.filename = false := by
  cases hm : goGlobMatches (r.patFront ++ '*' :: r.patBack) r.filename with
  | false => rfl
  | true =>
    exfalso
    obtain ⟨mid, heq⟩ := goGlobMatches_literal_decomp
      (globLiteral_patFront hf hδl) (globLiteral_patBack hf) hm
    have hpb := patBack_len r
    have hδlen : 0 < r.delimiter.length := List.length_pos.mpr hδ
    have hbase := parseFilename_append r.filename
    have hlen := congrArg List.length heq
    rw [List.length_append, List.length_append] at hlen
    unfold SizeLimitRotateRule.patFront at hlen
    rw [List.length_append] at hlen
    cases hs : splitLastChar '/' r.filename with
    | none =>
      rw [goFilepathBase_eq_none hs] at hbase
      have hblen := congrArg List.length hbase
      rw [List.length_append] at hblen
      rw [goFilepathDir_eq_none hs] at hlen
      simp only [List.length_cons, List.length_append, List.length_singleton] at hlen
      omega
    | some p =>
      obtain ⟨d, b⟩ := p
      obtain ⟨hfeq, hnb⟩ := splitLastChar_some hs
      rw [goFilepathBase_eq_some hs] at hbase
      have hblen := congrArg List.length hbase
      rw [List.length_append] at hblen
      have hflen := congrArg List.length hfeq
      rw [List.length_append, List.length_cons] at hflen
      cases d with
      | nil =>
        rw [goFilepathDir_eq_some_nil hs] at hlen
        simp only [List.length_cons, List.length_append, List.length_singleton] at hlen
        simp only [List.length_nil] at hflen
        omega
      | cons x xs =>
        rw [goFilepathDir_eq_some hs (by simp)] at hlen
        simp only [List.length_cons, List.length_append] at hlen hflen
        omega

/-- Current-time label used by the concrete scenarios. -/
def nowLabel : Str := ['t', '1']

/-- A concrete size rule with threshold 100 bytes for the rotation-threshold
    scenario (the `maxSize` field already holds bytes). -/
def sizeWriteRule : SizeLimitRotateRule :=
  { rotatedTime := ['t', '0'], filename := "app.log".data, delimiter := ['-'],
    days := 0, gzip := false, maxSize := 100, maxBackups := 0 }

/-- Worker state freshly opened on the active file for `sizeWriteRule`. -/
def sizeWriteState : WState SizeLimitRotateRule :=
  { rule := sizeWriteRule, backup := "app-t0.log".data, fpOpen := true,
    currentSize := 0, disk := [], rotations := 0 }

/-- Outcome oracle with every filesystem call succeeding. -/
def allOkEnv : RotEnv := ⟨true, true, true, true⟩

/-- A 60-byte buffer. -/
def sixtyBytes : Str := List.replicate 60 'a'

/-- First 60-byte write of the rotation-threshold scenario. -/
def sizeWriteStep1 : WState SizeLimitRotateRule × Int :=
  writeBuffer (sizeRuleOps nowLabel) allOkEnv sizeWriteState sixtyBytes

/-- Second 60-byte write of the rotation-threshold scenario. -/
def sizeWriteStep2 : WState SizeLimitRotateRule × Int :=
  writeBuffer (sizeRuleOps nowLabel) allOkEnv sizeWriteStep1.1 sixtyBytes

/-- A concrete size rule with threshold 5 bytes for the rotation-failure
    scenario. -/
def failRule : SizeLimitRotateRule :=
  { rotatedTime := ['t', '0'], filename := "app.log".data, delimiter := ['-'],
    days := 0, gzip := false, maxSize := 5, maxBackups := 0 }

/-- Worker state freshly opened on the active file for `failRule`. -/
def failState : WState SizeLimitRotateRule :=
  { rule := failRule, backup := "app-t0.log".data, fpOpen := true,
    currentSize := 0, disk := [], rotations := 0 }

/-- Outcome oracle where `os.Rename` fails and everything else succeeds. -/
def renameFailEnv : RotEnv := ⟨true, true, false, true⟩

/-- A 6-byte buffer whose prospective size 6 exceeds `failRule`'s threshold 5. -/
def failBuff : Str := "abcdef".data

/-- The write that hits the failing rotation. -/
def failStep : WState SizeLimitRotateRule × Int :=
  writeBuffer (sizeRuleOps nowLabel) renameFailEnv failState failBuff

/-- A concrete size rule with `maxBackups = 2` for the pruning scenario. -/
def pruneRule : SizeLimitRotateRule :=
  { rotatedTime := ['t'], filename := "logs/app.log".data, delimiter := ['-'],
    days := 0, gzip := false, maxSize := 0, maxBackups := 2 }

/-- Five existing backups (listed unsorted) plus an unrelated file. -/
def pruneEntries : List Str :=
  ["logs/app-003.log".data, "logs/app-001.log".data, "logs/app-005.log".data,
   "logs/app-002.log".data, "logs/zzz.txt".data, "logs/app-004.log".data]

/-- A concrete daily rule with the default delimiter. -/
def dayRule : DailyRotateRule :=
  { rotatedTime := "20240101".data, filename := "app".data, delimiter := ['-'],
    days := 1, gzip := false }

/-- A concrete daily rule with compression enabled. -/
def gzDayRule : DailyRotateRule :=
  { rotatedTime := "20240101".data, filename := "app".data, delimiter := ['-'],
    days := 1, gzip := true }

/-- A compressed backup of `gzDayRule`'s file. -/
def gzEntry : Str := "app-20240101.gz".data

/-- A retention boundary label far in the future. -/
def winterBoundary : Str := "20260101".data

/-- A concrete daily rule configured with an empty delimiter. -/
def noDelimRule : DailyRotateRule :=
  { rotatedTime := "20240101".data, filename := "app".data, delimiter := [],
    days := 1, gzip := false }

/-- A concrete daily rule whose non-empty delimiter is the glob
    metacharacter `*`. -/
def starDelimRule : DailyRotateRule :=
  { rotatedTime := "20240101".data, filename := "app".data, delimiter := ['*'],
    days := 1, gzip := false }

/-- Two calendar-day labels in increasing order. -/
def dayLabel1 : Str := "20240101".data

/-- The later of the two calendar-day labels. -/
def dayLabel2 : Str := "20240102".data

/-- C1: corrected.  When the rotation decision fires and `rotate` returns an
    error, the rotation state (`rule` marker, `currentSize`) is left
    unchanged, so the rotation is retried on the next qualifying write — but
    contrary to the claim the buffer's bytes are NOT written: the failed
    rotation has already closed the file handle (`close` clears it even on
    error, and the error paths return before `Create` reopens it), so the
    write degrades to the nil-handle no-op returning `(0, nil)` and the
    buffer is dropped. -/
theorem rotation_error_keeps_state_but_drops_buffer
    {σ : Type} (R : RuleModel σ) (e : RotEnv) (s : WState σ) (buff : Str)
    (hfire : R.shallRotate s.rule (s.currentSize + buff.length) = true)
    (herr : (wRotate R e s).2 = true) :
    (writeBuffer R e s buff).1.rule = s.rule ∧
    (writeBuffer R e s buff).1.currentSize = s.currentSize ∧
    (writeBuffer R e s buff).1.disk = s.disk ∧
    (writeBuffer R e s buff).1.fpOpen = false ∧
    (writeBuffer R e s buff).2 = 0 :=
  writeBuffer_err R e s buff hfire herr

/-- C1: counterexample to the claim as stated.  With a 6-byte buffer, a
    firing size rule and a failing `os.Rename`, no byte of the buffer
    reaches the file: `disk` is unchanged (not extended by the buffer) and
    the write reports 0 bytes. -/
theorem rotation_error_loses_buffer_bytes :
    (sizeRuleOps nowLabel).shallRotate failState.rule
        (failState.currentSize + failBuff.length) = true ∧
    (wRotate (sizeRuleOps nowLabel) renameFailEnv failState).2 = true ∧
    failStep.1.disk ≠ failState.disk ++ failBuff ∧
    failStep.2 = 0 := by decide

/-- C1: witness instantiating the amended theorem at the rename-failure
    scenario. -/
theorem rotation_error_keeps_state_witness :
    (writeBuffer (sizeRuleOps nowLabel) renameFailEnv failState failBuff).1.rule
        = failState.rule ∧
    (writeBuffer (sizeRuleOps nowLabel) renameFailEnv failState failBuff).1.currentSize
        = failState.currentSize ∧
    (writeBuffer (sizeRuleOps nowLabel) renameFailEnv failState failBuff).1.disk
        = failState.disk ∧
    (writeBuffer (sizeRuleOps nowLabel) renameFailEnv failState failBuff).1.fpOpen = false ∧
    (writeBuffer (sizeRuleOps nowLabel) renameFailEnv failState failBuff).2 = 0 :=
  rotation_error_keeps_state_but_drops_buffer (sizeRuleOps nowLabel) renameFailEnv
    failState failBuff (by decide) (by decide)

/-- C2: counterexample to the claim as stated.  For a pool of capacity
    `N = 1`, the second (`N+1`-th) acquire still returns a buffer, because
    `getBuffer` only fails when `count > size` (not `count >= size`). -/
theorem acquire_succeeds_at_capacity_plus_one :
    (acquireSeq ⟨1, 0⟩ 2).1 = [some (), some ()] ∧
    (acquireSeq ⟨1, 0⟩ 2).1 ≠ [some (), none] := by decide

/-- C2: the amended claim.  With capacity `N` and no releases, the first
    `N+1` acquires return a usable buffer and the `(N+2)`-th returns the
    exhaustion signal `nil` rather than blocking. -/
theorem acquire_exhausts_at_capacity_plus_two (N : Nat) :
    (acquireSeq ⟨(N : Int), 0⟩ (N + 2)).1
      = List.replicate (N + 1) (some ()) ++ [none] := by
  have h1 := acquireSeq_ok (k := N + 1) (p := ⟨(N : Int), 0⟩) (by push_cast; omega)
  have h2 : N + 2 = (N + 1) + 1 := rfl
  rw [h2, acquireSeq_add (N + 1) 1, h1]
  congr 1
  have hlt : ((N : Int)) < 0 + ((N + 1 : Nat) : Int) := by push_cast; omega
  simp [acquireSeq, getBuffer, hlt]

/-- C3: confirmed.  `ShallRotate size` holds exactly when `maxSize > 0` and
    `size > maxSize` (`maxSize <= 0` disables rotation), and with a 100-byte
    threshold, writing 60 then 60 bytes rotates exactly once between the two
    writes, leaving `currentSize = 60` (not 120). -/
theorem size_rule_threshold_and_single_rotation :
    (∀ (r : SizeLimitRotateRule) (size : Int),
      r.ShallRotate size = true ↔ 0 < r.maxSize ∧ r.maxSize < size)
    ∧ (sizeWriteStep1.2 = 60 ∧ sizeWriteStep1.1.rotations = 0 ∧
        sizeWriteStep1.1.currentSize = 60)
    ∧ (sizeWriteStep2.2 = 60 ∧ sizeWriteStep2.1.rotations = 1 ∧
        sizeWriteStep2.1.currentSize = 60) := by
  refine ⟨?_, by decide, by decide⟩
  intro r size
  simp [SizeLimitRotateRule.ShallRotate]

/-- C4: confirmed.  On a firing rotation decision: a failed `rotate` leaves
    both the rule state (hence `MarkRotated` was not called) and
    `currentSize` unchanged, so the next write re-evaluates the same
    decision; a successful `rotate` marks the rule rotated and resets
    `currentSize` to 0 (then the buffer write brings it to the buffer
    length); and without a firing decision the rule state is never touched. -/
theorem mark_rotated_and_reset_only_on_success
    {σ : Type} (R : RuleModel σ) (e : RotEnv) (s : WState σ) (buff : Str) :
    (R.shallRotate s.rule (s.currentSize + buff.length) = true →
      (wRotate R e s).2 = true →
      (writeBuffer R e s buff).1.rule = s.rule ∧
      (writeBuffer R e s buff).1.currentSize = s.currentSize)
    ∧ (R.shallRotate s.rule (s.currentSize + buff.length) = true →
      (wRotate R e s).2 = false →
      (writeBuffer R e s buff).1.rule = R.markRotated s.rule ∧
      (writeBuffer R e s buff).1.currentSize = buff.length)
    ∧ (R.shallRotate s.rule (s.currentSize + buff.length) = false →
      (writeBuffer R e s buff).1.rule = s.rule ∧
      ((writeBuffer R e s buff).1.currentSize = s.currentSize + buff.length ∨
        (writeBuffer R e s buff).1.currentSize = s.currentSize)) := by
  refine ⟨fun hf he => ?_, fun hf ho => ?_, fun hf => writeBuffer_nofire R e s buff hf⟩
  · obtain ⟨a, b, -, -, -⟩ := writeBuffer_err R e s buff hf he
    exact ⟨a, b⟩
  · obtain ⟨a, b, -, -⟩ := writeBuffer_ok R e s buff hf ho
    exact ⟨a, b⟩

/-- C4: witness instantiating the theorem at the rename-failure scenario. -/
theorem mark_rotated_and_reset_witness :
    (writeBuffer (sizeRuleOps nowLabel) renameFailEnv failState failBuff).1.rule
        = failState.rule ∧
    (writeBuffer (sizeRuleOps nowLabel) renameFailEnv failState failBuff).1.currentSize
        = failState.currentSize :=
  (mark_rotated_and_reset_only_on_success (sizeRuleOps nowLabel) renameFailEnv
    failState failBuff).1 (by decide) (by decide)

/-- C5: confirmed.  Membership in the size rule's `OutdatedFiles` is exactly
    the union of the count-based excess (the lexicographically smallest
    `len - maxBackups` of the sorted glob, regardless of age) and the
    age-based set (globbed files below the boundary name, when `days > 0`),
    de-duplicated; and with `maxBackups = 2` and 5 existing backups the
    result is exactly the 3 lexicographically smallest. -/
theorem size_outdated_union_and_prune_three :
    (∀ (r : SizeLimitRotateRule) (boundary : Str) (entries : List Str) (f : Str),
      f ∈ r.OutdatedFiles boundary entries ↔
        (f ∈ r.excessFiles entries ∨
          (0 < r.days ∧ f ∈ r.globFiles entries ∧
            goStrLt f (r.boundaryFileName boundary) = true)))
    ∧ pruneRule.OutdatedFiles winterBoundary pruneEntries
        = ["logs/app-001.log".data, "logs/app-002.log".data, "logs/app-003.log".data] :=
  ⟨fun _ _ _ _ => mem_sizeOutdated, by decide⟩

/-- C6: confirmed.  `Close` is idempotent: any call after the first is a
    no-op returning the same result as the first call (the first call always
    returns nil, because the worker's deferred cleanup has already closed
    the handle before `l.close()` runs). -/
theorem close_idempotent (closeOk : Bool) (s : CloseState) :
    (CloseOp closeOk ((CloseOp closeOk s).1)).2 = (CloseOp closeOk s).2 ∧
    (CloseOp closeOk ((CloseOp closeOk s).1)).1 = (CloseOp closeOk s).1 := by
  by_cases h : s.closed <;> simp [CloseOp, h]

/-- C7: confirmed.  For the daily rule, later day labels give strictly
    lexicographically larger (hence distinct) backup names, and after
    `MarkRotated` every `ShallRotate` within the same day label is false. -/
theorem daily_backup_names_monotone :
    (∀ (r : DailyRotateRule) (d1 d2 : Str), goStrLt d1 d2 = true →
      goStrLt (r.BackupFileName d1) (r.BackupFileName d2) = true ∧
      r.BackupFileName d1 ≠ r.BackupFileName d2)
    ∧ (∀ (r : DailyRotateRule) (nowDate : Str) (size : Int),
      (r.MarkRotated nowDate).ShallRotate nowDate size = false) := by
  constructor
  · intro r d1 d2 h
    constructor
    · simp only [DailyRotateRule.BackupFileName]
      rw [goStrLt_append_left]
      exact h
    · intro heq
      simp only [DailyRotateRule.BackupFileName] at heq
      have h2 := List.append_cancel_left heq
      rw [h2] at h
      rw [goStrLt_irrefl] at h
      exact Bool.noConfusion h
  · intro r nowDate size
    simp [DailyRotateRule.ShallRotate, DailyRotateRule.MarkRotated]

/-- C7: witness instantiating the theorem at two concrete day labels. -/
theorem daily_backup_names_monotone_witness :
    goStrLt (dayRule.BackupFileName dayLabel1) (dayRule.BackupFileName dayLabel2) = true ∧
    dayRule.BackupFileName dayLabel1 ≠ dayRule.BackupFileName dayLabel2 :=
  daily_backup_names_monotone.1 dayRule dayLabel1 dayLabel2 (by decide)

/-- C8: confirmed.  With compression enabled, every path any rule variant's
    `OutdatedFiles` returns ends in `.gz` (the glob only matches compressed
    files), so an uncompressed backup awaiting compression is never
    reported. -/
theorem gzip_outdated_only_compressed :
    (∀ (r : DailyRotateRule) (boundary : Str) (entries : List Str) (f : Str),
      r.gzip = true → f ∈ r.OutdatedFiles boundary entries →
      endsWithStr f gzipExtStr = true)
    ∧ (∀ (r : HourRotateRule) (boundary : Str) (entries : List Str) (f : Str),
      r.gzip = true → f ∈ r.OutdatedFiles boundary entries →
      endsWithStr f gzipExtStr = true)
    ∧ (∀ (r : SizeLimitRotateRule) (boundary : Str) (entries : List Str) (f : Str),
      r.gzip = true → f ∈ r.OutdatedFiles boundary entries →
      endsWithStr f gzipExtStr = true) := by
  refine ⟨?_, ?_, ?_⟩
  · intro r boundary entries f hg h
    obtain ⟨hm, -, -⟩ := mem_dailyOutdated h
    have hgz : (if r.gzip then gzipExtStr else []) = gzipExtStr := by simp [hg]
    rw [hgz] at hm
    have hsplit : r.filename ++ r.delimiter ++ '*' :: gzipExtStr
        = (r.filename ++ r.delimiter ++ ['*']) ++ gzipExtStr := by simp
    rw [hsplit] at hm
    exact goGlobMatches_gz_tail hm
  · intro r boundary entries f hg h
    obtain ⟨hm, -, -⟩ := mem_hourOutdated h
    have hgz : (if r.gzip then gzipExtStr else []) = gzipExtStr := by simp [hg]
    rw [hgz] at hm
    have hsplit : r.filename ++ r.delimiter ++ '*' :: gzipExtStr
        = (r.filename ++ r.delimiter ++ ['*']) ++ gzipExtStr := by simp
    rw [hsplit] at hm
    exact goGlobMatches_gz_tail hm
  · intro r boundary entries f hg h
    have hm : goGlobMatches (r.patFront ++ '*' :: r.patBack) f = true := by
      rcases mem_sizeOutdated.mp h with hx | ⟨-, hgf, -⟩
      · exact mem_globFiles_matches ((excess_sublist_glob r entries).subset hx)
      · exact mem_globFiles_matches hgf
    have hb : r.patBack = (parseFilename r.filename).2 ++ gzipExtStr := by
      simp [SizeLimitRotateRule.patBack, hg]
    rw [hb] at hm
    have hsplit : r.patFront ++ '*' :: ((parseFilename r.filename).2 ++ gzipExtStr)
        = (r.patFront ++ '*' :: (parseFilename r.filename).2) ++ gzipExtStr := by simp
    rw [hsplit] at hm
    exact goGlobMatches_gz_tail hm

/-- C8: witness instantiating the daily case at a concrete compressed
    backup. -/
theorem gzip_outdated_only_compressed_witness : endsWithStr gzEntry gzipExtStr = true :=
  gzip_outdated_only_compressed.1 gzDayRule winterBoundary [gzEntry] gzEntry rfl (by decide)

/-- C9: confirmed.  `gzipFile` invokes `Remove` on the original file exactly
    when open, create, copy, gzip-writer close and output close all
    succeeded; on any failure along that path the original is left in
    place. -/
theorem gzip_removes_original_iff_success (e : GzEnv) :
    (gzipFile e).1 = (e.openOk && e.createOk && e.copyOk && e.closeWOk && e.closeOutOk) := by
  rcases e with ⟨o, c, p, w, u, i, r⟩
  cases o <;> cases c <;> cases p <;> cases w <;> cases u <;> simp [gzipFile]

/-- C10: counterexample to the claim as stated.  The delimiter `"*"` is
    non-empty, yet Go glob semantics make the pattern `app**` match the
    bare active filename (each `*` matches the empty run), and `app`
    lexicographically precedes the boundary name `app*20260101`, so the
    daily rule reports the live file as outdated. -/
theorem star_delimiter_defeats_protection :
    starDelimRule.delimiter ≠ [] ∧
    starDelimRule.filename ∈
      starDelimRule.OutdatedFiles winterBoundary [starDelimRule.filename] := by decide

/-- C10: corrected.  When the delimiter is non-empty and both the filename
    and the delimiter consist of glob-literal characters (no star, question
    mark, bracket, or backslash), no rule variant's `OutdatedFiles` ever
    contains the active file's own path; the protection fails when the
    delimiter is empty — the bare filename matches the glob and precedes
    the boundary name — and likewise for metacharacter delimiters. -/
theorem active_file_never_outdated :
    (∀ (r : DailyRotateRule) (boundary : Str) (entries : List Str),
        r.delimiter ≠ [] → globLiteral r.filename = true →
        globLiteral r.delimiter = true →
        r.filename ∉ r.OutdatedFiles boundary entries)
    ∧ (∀ (r : HourRotateRule) (boundary : Str) (entries : List Str),
        r.delimiter ≠ [] → globLiteral r.filename = true →
        globLiteral r.delimiter = true →
        r.filename ∉ r.OutdatedFiles boundary entries)
    ∧ (∀ (r : SizeLimitRotateRule) (boundary : Str) (entries : List Str),
        r.delimiter ≠ [] → globLiteral r.filename = true →
        globLiteral r.delimiter = true →
        r.filename ∉ r.OutdatedFiles boundary entries)
    ∧ noDelimRule.filename ∈ noDelimRule.OutdatedFiles winterBoundary
        [noDelimRule.filename] := by
  refine ⟨?_, ?_, ?_, by decide⟩
  · intro r boundary entries hδ hfl hdl hmem
    obtain ⟨hm, -, -⟩ := mem_dailyOutdated hmem
    rw [active_no_globMatch hδ hfl hdl (globLiteral_gzOpt r.gzip)] at hm
    exact Bool.noConfusion hm
  · intro r boundary entries hδ hfl hdl hmem
    obtain ⟨hm, -, -⟩ := mem_hourOutdated hmem
    rw [active_no_globMatch hδ hfl hdl (globLiteral_gzOpt r.gzip)] at hm
    exact Bool.noConfusion hm
  · intro r boundary entries hδ hfl hdl hmem
    have hm : goGlobMatches (r.patFront ++ '*' :: r.patBack) r.filename = true := by
      rcases mem_sizeOutdated.mp hmem with hx | ⟨-, hgf, -⟩
      · exact mem_globFiles_matches ((excess_sublist_glob r entries).subset hx)
      · exact mem_globFiles_matches hgf
    rw [sizeActive_no_globMatch hδ hfl hdl] at hm
    exact Bool.noConfusion hm

/-- C10: witness instantiating the daily case at a concrete rule with the
    default literal delimiter. -/
theorem active_file_never_outdated_witness :
    dayRule.filename ∉ dayRule.OutdatedFiles winterBoundary [dayRule.filename] :=
  active_file_never_outdated.1 dayRule winterBoundary [dayRule.filename]
    (by decide) (by decide) (by decide)
